import Mathlib

/-!
A shallow embedding of the core of the `tzconverter` meeting-scheduler
repository (`src/timezones.py` and `src/main.py`), with theorems about the
preferred-hours predicate, the viability scorer, the 24-hour slot generator
and the session store.

Modelling conventions:

* An instant is the number of minutes since an arbitrary UTC-midnight-aligned
  epoch, carried as an `Int`.  The Python `datetime.hour` attribute of such an
  instant is `hourOf`.
* The timezone database (`zoneinfo.ZoneInfo`) is an abstract parameter
  `db : TZDB` mapping an IANA identifier to `none` (identifier unresolvable,
  Python raises) or to its DST-aware offset function, in minutes, of the
  instant.  Python code that raises on an unresolvable identifier is embedded
  with `Except UnknownTimezone`.
* Scores are rationals (`Rat`); for the list sizes that occur the Python float
  division and comparisons are exact, so `Rat` is the faithful model.
* The process-wide `sessions` dict of `src/main.py` holds a single bucket
  under the constant key returned by `get_session_id`; the store state is
  modelled as that bucket's entry list, with a missing key modelled as the
  empty list (exactly what `get_session_timezones` returns for it).
-/

/-- The timezone database: resolves an IANA identifier to `none` (unknown,
`ZoneInfo` raises) or to the zone's offset-from-UTC in minutes as a function of
the instant (DST-aware). -/
abbrev TZDB := String → Option (Int → Int)

/-- The error raised when an identifier cannot be resolved by the timezone
database (`zoneinfo.ZoneInfoNotFoundError` / `KeyError` in Python). -/
structure UnknownTimezone where
  tz_id : String
deriving DecidableEq, Repr

/-- The Python `datetime.hour` attribute of an instant on the
minutes-since-UTC-midnight timeline: floor-divide by 60 minutes, reduce
modulo 24 hours. -/
def hourOf (t : Int) : Int :=
  (t.ediv 60).emod 24

/-- `timezones.get_current_time_in_timezone`:
`datetime.now(ZoneInfo(tz_id))` — resolve the identifier (raising
`UnknownTimezone` when it cannot be resolved) and shift the current UTC
instant `now` into the zone's local wall clock. -/
def get_current_time_in_timezone (db : TZDB) (now : Int) (tz_id : String) :
    Except UnknownTimezone Int :=
  match db tz_id with
  | none => Except.error ⟨tz_id⟩
  | some off => Except.ok (now + off now)

/-- `timezones.is_time_in_preferred_hours dt preferred_start preferred_end`:
read `hour = dt.hour`; if `preferred_end < preferred_start` the window wraps
past midnight and membership is `hour >= preferred_start or
hour < preferred_end`; otherwise membership is
`preferred_start <= hour < preferred_end`. -/
def is_time_in_preferred_hours (dt : Int) (preferred_start preferred_end : Int) :
    Bool :=
  let hour := hourOf dt
  if preferred_end < preferred_start then
    decide (preferred_start ≤ hour) || decide (hour < preferred_end)
  else
    decide (preferred_start ≤ hour) && decide (hour < preferred_end)

/-- The inline membership test duplicated in the `/grid-detail` route of
`src/main.py` (lines 527–531): on the already-extracted `local_hour`, the
same two branches as `is_time_in_preferred_hours`. -/
def grid_detail_in_hours (local_hour preferred_start preferred_end : Int) :
    Bool :=
  if preferred_end < preferred_start then
    decide (preferred_start ≤ local_hour) || decide (local_hour < preferred_end)
  else
    decide (preferred_start ≤ local_hour) && decide (local_hour < preferred_end)

/-- One element of the `timezones_config` list given to
`calculate_viability_score`: a dict with key `"id"` (required — Python would
raise `KeyError`) and optional keys `"preferred_start"` / `"preferred_end"`
(read with `dict.get` defaults 9 and 17). -/
structure TZConfigEntry where
  id : String
  preferred_start : Option Int
  preferred_end : Option Int
deriving DecidableEq, Repr

/-- The counting loop inside `calculate_viability_score`: walk the config
list in order; resolve each entry's timezone (the first unresolvable
identifier raises `UnknownTimezone`, which propagates), localize `dt` into
it, and count the entries whose local time passes
`is_time_in_preferred_hours`. -/
def scoreLoop (db : TZDB) (dt : Int) :
    List TZConfigEntry → Except UnknownTimezone Nat
  | [] => Except.ok 0
  | c :: rest =>
    match db c.id with
    | none => Except.error ⟨c.id⟩
    | some off =>
      match scoreLoop db dt rest with
      | Except.error e => Except.error e
      | Except.ok n =>
        Except.ok
          ((if is_time_in_preferred_hours (dt + off dt)
              (c.preferred_start.getD 9) (c.preferred_end.getD 17)
            then 1 else 0) + n)

/-- `timezones.calculate_viability_score dt timezones_config`: empty config
returns `(0.0, "red")`; otherwise `score = in_preferred_count / total_count`,
with colour class `"green"` when `score == 1.0`, `"yellow"` when
`score >= 0.5`, else `"red"`.  An unresolvable timezone identifier raises
`UnknownTimezone` out of the loop. -/
def calculate_viability_score (db : TZDB) (dt : Int)
    (timezones_config : List TZConfigEntry) :
    Except UnknownTimezone (Rat × String) :=
  if timezones_config.isEmpty then Except.ok (0, "red")
  else
    match scoreLoop db dt timezones_config with
    | Except.error e => Except.error e
    | Except.ok in_preferred_count =>
      let score : Rat := (in_preferred_count : Rat) / (timezones_config.length : Rat)
      let color_class : String :=
        if score = 1 then "green" else if 1/2 ≤ score then "yellow" else "red"
      Except.ok (score, color_class)

/-- The specification-side membership test for one config entry at instant
`dt`: resolve the entry's timezone and apply the predicate to the localized
instant (with the `dict.get` defaults 9 / 17). -/
def entryInWindow (db : TZDB) (dt : Int) (c : TZConfigEntry) : Bool :=
  match db c.id with
  | none => false
  | some off =>
    is_time_in_preferred_hours (dt + off dt)
      (c.preferred_start.getD 9) (c.preferred_end.getD 17)

/-- A Python aware `datetime` in UTC (the zone every caller of
`generate_24hour_slots` passes and the default `datetime.now(ZoneInfo("UTC"))`
uses; `datetime.replace` keeps `tzinfo`), with the calendar date collapsed to
a day ordinal. -/
structure PyDateTime where
  day : Int
  hour : Int
  minute : Int
  second : Int
  microsecond : Int
deriving DecidableEq, Repr

/-- `timezones.generate_24hour_slots base_date`:
`start = base_date.replace(hour=0, minute=0, second=0, microsecond=0)`,
then `[start.replace(hour=h) for h in range(24)]`. -/
def generate_24hour_slots (base_date : PyDateTime) : List PyDateTime :=
  let start : PyDateTime := ⟨base_date.day, 0, 0, 0, 0⟩
  (List.range 24).map fun h : Nat =>
    ⟨start.day, Int.ofNat h, start.minute, start.second, start.microsecond⟩

/-- One entry of the session bucket built by `add_timezone_to_session` in
`src/main.py`: the dict
`{"id": .., "name": .., "preferred_start": .., "preferred_end": .., "uid": ..}`. -/
structure SessionEntry where
  id : String
  name : String
  preferred_start : Int
  preferred_end : Int
  uid : String
deriving DecidableEq, Repr

/-- `main.add_timezone_to_session tz_id tz_name`: if an entry with the same
`id` already exists, return without change; otherwise append a new entry with
default window 9–17 and a freshly minted uid (`str(uuid.uuid4())`, passed here
as the parameter `fresh_uid`). -/
def add_timezone_to_session (tz_id tz_name fresh_uid : String)
    (store : List SessionEntry) : List SessionEntry :=
  if store.any fun tz => tz.id == tz_id then store
  else store ++ [⟨tz_id, tz_name, 9, 17, fresh_uid⟩]

/-- `main.remove_timezone_from_session uid`: keep exactly the entries whose
`uid` differs (a Python list comprehension); no-op when nothing matches. -/
def remove_timezone_from_session (uid : String)
    (store : List SessionEntry) : List SessionEntry :=
  store.filter fun tz => tz.uid != uid

/-- `main.update_timezone_hours uid start end`: scan in order; the first entry
whose `uid` matches gets `preferred_start` / `preferred_end` replaced in place
and the loop breaks; no-op when nothing matches.  (`end` is a Lean keyword, so
the second hour is called `stop` here.) -/
def update_timezone_hours (uid : String) (start stop : Int) :
    List SessionEntry → List SessionEntry
  | [] => []
  | tz :: rest =>
    if tz.uid == uid then ⟨tz.id, tz.name, start, stop, tz.uid⟩ :: rest
    else tz :: update_timezone_hours uid start stop rest

/-- One request-level mutation of the session store. -/
inductive StoreOp where
  | addOp (tz_id tz_name fresh_uid : String)
  | removeOp (uid : String)
  | updateOp (uid : String) (start stop : Int)
deriving DecidableEq, Repr

/-- Apply one store operation. -/
def applyOp (store : List SessionEntry) : StoreOp → List SessionEntry
  | StoreOp.addOp tz_id tz_name u => add_timezone_to_session tz_id tz_name u store
  | StoreOp.removeOp u => remove_timezone_from_session u store
  | StoreOp.updateOp u s e => update_timezone_hours u s e store

/-- Apply a sequence of store operations, left to right. -/
def applyOps (store : List SessionEntry) : List StoreOp → List SessionEntry
  | [] => store
  | op :: ops => applyOps (applyOp store op) ops

/-- `uuid.uuid4()` freshness, relative to a starting state: every `addOp`
that actually mints an entry (its `timezoneId` is not already present, so the
add is not a no-op) carries a uid absent from the store state at the moment
the operation runs. -/
def freshUids (store : List SessionEntry) : List StoreOp → Bool
  | [] => true
  | op :: ops =>
    (match op with
     | StoreOp.addOp tz_id _ u =>
       (store.any fun e => e.id == tz_id) || store.all fun e => e.uid != u
     | _ => true) && freshUids (applyOp store op) ops

/-- C2: the preferred-hours predicate is the half-open window `s ≤ h < e`
when `s < e`, the midnight-wrapping union `h ≥ s ∨ h < e` when `s > e`, and
the empty (always-false) window when `s = e`. -/
theorem preferred_hours_window_spec (dt s e : Int)
    (_hs : 0 ≤ s ∧ s ≤ 23) (_he : 0 ≤ e ∧ e ≤ 23) :
    (s < e → (is_time_in_preferred_hours dt s e = true ↔
      s ≤ hourOf dt ∧ hourOf dt < e)) ∧
    (e < s → (is_time_in_preferred_hours dt s e = true ↔
      s ≤ hourOf dt ∨ hourOf dt < e)) ∧
    (s = e → is_time_in_preferred_hours dt s e = false) := by
  simp only [is_time_in_preferred_hours]
  refine ⟨fun h => ?_, fun h => ?_, fun h => ?_⟩
  · rw [if_neg (by omega)]
    simp
  · rw [if_pos h]
    simp
  · rw [if_neg (by omega)]
    simp only [Bool.and_eq_false_iff, decide_eq_false_iff_not, not_le, not_lt]
    omega

theorem preferred_hours_window_spec_witness :
    is_time_in_preferred_hours 600 9 17 = true ↔
      9 ≤ hourOf 600 ∧ hourOf 600 < 17 :=
  (preferred_hours_window_spec 600 9 17 (by decide) (by decide)).1 (by decide)

/-- C10: the membership test inlined in the `/grid-detail` route agrees with
`is_time_in_preferred_hours` on the same local hour and window, for every
instant and all start/end values. -/
theorem grid_detail_matches_predicate (dt preferred_start preferred_end : Int) :
    grid_detail_in_hours (hourOf dt) preferred_start preferred_end =
      is_time_in_preferred_hours dt preferred_start preferred_end := rfl

/-- C4: the slot generator returns exactly 24 instants; the slot at index
`i` is hour `i` (so the first is hour 0 and consecutive slots are one hour
apart, strictly increasing) of the UTC calendar day of the reference
instant, with minute, second and microsecond all 0. -/
theorem generate_24hour_slots_spec (base_date : PyDateTime) :
    (generate_24hour_slots base_date).length = 24 ∧
    ∀ i, (hi : i < (generate_24hour_slots base_date).length) →
      (generate_24hour_slots base_date).get ⟨i, hi⟩ =
        ⟨base_date.day, (i : Int), 0, 0, 0⟩ := by
  constructor
  · unfold generate_24hour_slots
    rw [List.length_map, List.length_range]
  · intro i hi
    rw [List.get_eq_getElem]
    unfold generate_24hour_slots
    rw [List.getElem_map, List.getElem_range]
    rfl

theorem generate_24hour_slots_spec_witness :
    (generate_24hour_slots ⟨739000, 13, 45, 30, 500⟩).length = 24 ∧
    (generate_24hour_slots ⟨739000, 13, 45, 30, 500⟩).get ⟨5, by decide⟩ =
      ⟨739000, 5, 0, 0, 0⟩ :=
  ⟨(generate_24hour_slots_spec _).1, (generate_24hour_slots_spec _).2 5 (by decide)⟩

/-- C6: removing or updating an `entryId` that is absent from the store
leaves the entry list unchanged in order and contents (both operations are
total functions here — neither raises). -/
theorem unknown_entry_ops_noop (store : List SessionEntry) (uid : String)
    (s e : Int) (h : ∀ tz ∈ store, tz.uid ≠ uid) :
    remove_timezone_from_session uid store = store ∧
    update_timezone_hours uid s e store = store := by
  constructor
  · refine List.filter_eq_self.mpr ?_
    intro a ha
    simpa using h a ha
  · induction store with
    | nil => rfl
    | cons tz rest ih =>
      simp only [update_timezone_hours]
      rw [if_neg (by simpa using h tz (List.mem_cons_self tz rest))]
      rw [ih fun y hy => h y (List.mem_cons_of_mem tz hy)]

theorem unknown_entry_ops_noop_witness :
    remove_timezone_from_session "u9" [⟨"UTC", "UTC", 9, 17, "u1"⟩] =
      [⟨"UTC", "UTC", 9, 17, "u1"⟩] ∧
    update_timezone_hours "u9" 8 18 [⟨"UTC", "UTC", 9, 17, "u1"⟩] =
      [⟨"UTC", "UTC", 9, 17, "u1"⟩] :=
  unknown_entry_ops_noop [⟨"UTC", "UTC", 9, 17, "u1"⟩] "u9" 8 18
    (by intro tz htz; simp at htz; subst htz; decide)

/-- C7: updating the hours of a present `entryId` (the first match, as the
Python loop breaks) replaces exactly that entry's window, keeping its list
position, `id`, `name` and `uid`, and every other entry untouched. -/
theorem update_hours_frame (pre post : List SessionEntry) (tz : SessionEntry)
    (uid : String) (s e : Int) (huid : tz.uid = uid)
    (hpre : ∀ x ∈ pre, x.uid ≠ uid) :
    update_timezone_hours uid s e (pre ++ tz :: post) =
      pre ++ ⟨tz.id, tz.name, s, e, tz.uid⟩ :: post := by
  induction pre with
  | nil =>
    simp only [List.nil_append, update_timezone_hours]
    rw [if_pos (by simp [huid])]
  | cons x xs ih =>
    simp only [List.cons_append, update_timezone_hours]
    rw [if_neg (by simpa using hpre x (List.mem_cons_self x xs))]
    exact congrArg (List.cons x) (ih fun y hy => hpre y (List.mem_cons_of_mem x hy))

theorem update_hours_frame_witness :
    update_timezone_hours "u2" 22 6
        [⟨"UTC", "UTC", 9, 17, "u1"⟩, ⟨"Asia/Tokyo", "Tokyo", 9, 17, "u2"⟩,
          ⟨"Europe/Paris", "Paris", 9, 17, "u3"⟩] =
      [⟨"UTC", "UTC", 9, 17, "u1"⟩, ⟨"Asia/Tokyo", "Tokyo", 22, 6, "u2"⟩,
        ⟨"Europe/Paris", "Paris", 9, 17, "u3"⟩] :=
  update_hours_frame [⟨"UTC", "UTC", 9, 17, "u1"⟩]
    [⟨"Europe/Paris", "Paris", 9, 17, "u3"⟩] ⟨"Asia/Tokyo", "Tokyo", 9, 17, "u2"⟩
    "u2" 22 6 rfl (by intro x hx; simp at hx; subst hx; decide)

/-- C5: on any store in which a given `timezoneId` occurs at most once (the
invariant every reachable store satisfies, since adds reject duplicates),
adding it twice equals adding it once — the second call is a no-op, so the
first entry's uid survives unchanged — the result holds exactly one entry
for that `timezoneId`, and when the id was absent the add appends a new
entry at the end with the freshly minted uid and the default 9–17 window. -/
theorem add_timezone_idempotent (store : List SessionEntry)
    (tz_id tz_name u1 u2 : String)
    (hstore : store.countP (fun e => e.id == tz_id) ≤ 1) :
    add_timezone_to_session tz_id tz_name u2
        (add_timezone_to_session tz_id tz_name u1 store) =
      add_timezone_to_session tz_id tz_name u1 store ∧
    (add_timezone_to_session tz_id tz_name u1 store).countP
        (fun e => e.id == tz_id) = 1 ∧
    ((∀ tz ∈ store, tz.id ≠ tz_id) →
      add_timezone_to_session tz_id tz_name u1 store =
        store ++ [⟨tz_id, tz_name, 9, 17, u1⟩]) := by
  unfold add_timezone_to_session
  by_cases hany : (store.any fun tz => tz.id == tz_id) = true
  · rw [if_pos hany, if_pos hany]
    obtain ⟨x, hx, hpx⟩ := List.any_eq_true.mp hany
    refine ⟨rfl, ?_, fun hall => absurd (by simpa using hpx) (hall x hx)⟩
    have h1 : 0 < store.countP fun e => e.id == tz_id :=
      List.countP_pos_iff.mpr ⟨x, hx, hpx⟩
    omega
  · rw [if_neg hany]
    have hnew : ((store ++ [(⟨tz_id, tz_name, 9, 17, u1⟩ : SessionEntry)]).any
        fun tz => tz.id == tz_id) = true := by
      simp [List.any_append]
    rw [if_pos hnew]
    have h0 : (store.countP fun e => e.id == tz_id) = 0 := by
      refine List.countP_eq_zero.mpr ?_
      intro a ha
      have := List.any_eq_true.not.mp hany
      push_neg at this
      exact this a ha
    refine ⟨rfl, ?_, fun _ => rfl⟩
    rw [List.countP_append, h0]
    simp

theorem add_timezone_idempotent_witness :
    add_timezone_to_session "UTC" "UTC" "u2"
        (add_timezone_to_session "UTC" "UTC" "u1" []) =
      add_timezone_to_session "UTC" "UTC" "u1" [] ∧
    (add_timezone_to_session "UTC" "UTC" "u1" []).countP
        (fun e => e.id == "UTC") = 1 ∧
    ((∀ tz ∈ ([] : List SessionEntry), tz.id ≠ "UTC") →
      add_timezone_to_session "UTC" "UTC" "u1" [] =
        [] ++ [⟨"UTC", "UTC", 9, 17, "u1"⟩]) :=
  add_timezone_idempotent [] "UTC" "UTC" "u1" "u2" (by decide)

/-- When every identifier in the config list resolves, the scorer's counting
loop succeeds and counts exactly the entries passing `entryInWindow`. -/
lemma scoreLoop_ok_of_resolvable (db : TZDB) (dt : Int) :
    ∀ cfgs : List TZConfigEntry, (∀ c ∈ cfgs, (db c.id).isSome) →
      scoreLoop db dt cfgs = Except.ok (cfgs.countP (entryInWindow db dt)) := by
  intro cfgs
  induction cfgs with
  | nil => intro _; rfl
  | cons c rest ih =>
    intro h
    obtain ⟨off, hoff⟩ :=
      Option.isSome_iff_exists.mp (h c (List.mem_cons_self c rest))
    have hrest := ih fun x hx => h x (List.mem_cons_of_mem c hx)
    have hwin : entryInWindow db dt c =
        is_time_in_preferred_hours (dt + off dt)
          (c.preferred_start.getD 9) (c.preferred_end.getD 17) := by
      simp [entryInWindow, hoff]
    simp only [scoreLoop, hoff, hrest, List.countP_cons, hwin]
    cases hP : is_time_in_preferred_hours (dt + off dt)
        (c.preferred_start.getD 9) (c.preferred_end.getD 17) <;>
      simp [hP, Nat.add_comm]

/-- When every identifier resolves and the config list is nonempty, the
scorer returns the counted fraction together with the code's colour chain. -/
lemma viability_ok_of_resolvable (db : TZDB) (dt : Int)
    (cfgs : List TZConfigEntry) (hres : ∀ c ∈ cfgs, (db c.id).isSome)
    (hne : cfgs ≠ []) :
    calculate_viability_score db dt cfgs =
      Except.ok ((cfgs.countP (entryInWindow db dt) : Rat) / (cfgs.length : Rat),
        if (cfgs.countP (entryInWindow db dt) : Rat) / (cfgs.length : Rat) = 1
          then "green"
          else if 1/2 ≤ (cfgs.countP (entryInWindow db dt) : Rat) / (cfgs.length : Rat)
            then "yellow" else "red") := by
  unfold calculate_viability_score
  rw [if_neg (by simpa using hne), scoreLoop_ok_of_resolvable db dt cfgs hres]

/-- The colour chain of `calculate_viability_score` classifies a score in
`[0, 1]` exactly at the claimed thresholds, with the tie at `1/2` going to
`"yellow"`. -/
lemma tier_classification (score : Rat) (hle : score ≤ 1) :
    ((if score = 1 then "green" else if 1/2 ≤ score then "yellow" else "red")
        = "green" ↔ score = 1) ∧
    ((if score = 1 then "green" else if 1/2 ≤ score then "yellow" else "red")
        = "yellow" ↔ 1/2 ≤ score ∧ score < 1) ∧
    ((if score = 1 then "green" else if 1/2 ≤ score then "yellow" else "red")
        = "red" ↔ score < 1/2) := by
  have hgy : ("green" : String) ≠ "yellow" := by decide
  have hgr : ("green" : String) ≠ "red" := by decide
  have hyr : ("yellow" : String) ≠ "red" := by decide
  by_cases h1 : score = 1
  · rw [if_pos h1]
    refine ⟨iff_of_true rfl h1, iff_of_false hgy ?_, iff_of_false hgr ?_⟩
    · rintro ⟨-, hlt⟩
      exact absurd h1 (ne_of_lt hlt)
    · rw [h1]
      norm_num
  · rw [if_neg h1]
    by_cases h2 : 1/2 ≤ score
    · rw [if_pos h2]
      exact ⟨iff_of_false (fun h => hgy h.symm) h1,
        iff_of_true rfl ⟨h2, lt_of_le_of_ne hle h1⟩,
        iff_of_false hyr (not_lt.mpr h2)⟩
    · rw [if_neg h2]
      exact ⟨iff_of_false (fun h => hgr h.symm) h1,
        iff_of_false (fun h => hyr h.symm) (fun hc => h2 hc.1),
        iff_of_true rfl (not_le.mp h2)⟩

/-- C1: with every identifier resolvable, the scorer returns `(0.0, "red")`
on the empty entry list; otherwise it returns
`score = matches / totalEntries` (`entryInWindow` counts the entries whose
localized hour is in their window) with colour `"green"` (FULL) exactly when
`score = 1`, `"yellow"` (PARTIAL) exactly when `1/2 ≤ score < 1` — the tie
at exactly `1/2` is PARTIAL — and `"red"` (LOW) exactly when `score < 1/2`. -/
theorem viability_score_algorithm (db : TZDB) (dt : Int)
    (cfgs : List TZConfigEntry) (hres : ∀ c ∈ cfgs, (db c.id).isSome) :
    (cfgs = [] → calculate_viability_score db dt cfgs = Except.ok (0, "red")) ∧
    (cfgs ≠ [] → ∃ score tier,
      calculate_viability_score db dt cfgs = Except.ok (score, tier) ∧
      score = (cfgs.countP (entryInWindow db dt) : Rat) / (cfgs.length : Rat) ∧
      (tier = "green" ↔ score = 1) ∧
      (tier = "yellow" ↔ 1/2 ≤ score ∧ score < 1) ∧
      (tier = "red" ↔ score < 1/2)) := by
  constructor
  · rintro rfl
    rfl
  · intro hne
    have hNQ : (0 : Rat) < (cfgs.length : Rat) := by
      exact_mod_cast List.length_pos.mpr hne
    have hle : (cfgs.countP (entryInWindow db dt) : Rat) / (cfgs.length : Rat) ≤ 1 := by
      rw [div_le_one hNQ]
      exact_mod_cast List.countP_le_length _
    obtain ⟨hA, hB, hC⟩ := tier_classification _ hle
    exact ⟨_, _, viability_ok_of_resolvable db dt cfgs hres hne, rfl, hA, hB, hC⟩

/-- A tiny concrete timezone database for instantiations: `"UTC"` resolves
with offset 0 and `"Asia/Kolkata"` with offset +330 minutes; every other
identifier is unknown. -/
def toyDB : TZDB := fun s =>
  if s = "UTC" then some fun _ => 0
  else if s = "Asia/Kolkata" then some fun _ => 330
  else none

/-- A one-entry config list over `toyDB`: UTC with the 9–17 window. -/
def cfgUTC : List TZConfigEntry := [⟨"UTC", some 9, some 17⟩]

theorem viability_score_algorithm_witness :
    ∃ score tier,
      calculate_viability_score toyDB 600 cfgUTC = Except.ok (score, tier) ∧
      score = (cfgUTC.countP (entryInWindow toyDB 600) : Rat) / (cfgUTC.length : Rat) ∧
      (tier = "green" ↔ score = 1) ∧
      (tier = "yellow" ↔ 1/2 ≤ score ∧ score < 1) ∧
      (tier = "red" ↔ score < 1/2) :=
  (viability_score_algorithm toyDB 600 cfgUTC
    (by intro c hc; simp only [cfgUTC, List.mem_singleton] at hc; subst hc; rfl)).2
    (by simp [cfgUTC])

/-- C3: with every identifier resolvable, the scorer succeeds; every returned
score lies in `[0, 1]`; the empty list returns exactly `(0.0, "red")`; and on
a nonempty list the score equals 1 exactly when every entry's localized hour
is inside its window. -/
theorem viability_score_range (db : TZDB) (dt : Int)
    (cfgs : List TZConfigEntry) (hres : ∀ c ∈ cfgs, (db c.id).isSome) :
    (cfgs = [] → calculate_viability_score db dt cfgs = Except.ok (0, "red")) ∧
    (∃ p, calculate_viability_score db dt cfgs = Except.ok p) ∧
    ∀ score tier, calculate_viability_score db dt cfgs = Except.ok (score, tier) →
      0 ≤ score ∧ score ≤ 1 ∧
      (cfgs ≠ [] → (score = 1 ↔ ∀ c ∈ cfgs, entryInWindow db dt c = true)) := by
  rcases eq_or_ne cfgs [] with rfl | hne
  · refine ⟨fun _ => rfl, ⟨(0, "red"), rfl⟩, ?_⟩
    intro score tier h
    rw [show calculate_viability_score db dt [] = Except.ok ((0 : Rat), "red")
      from rfl] at h
    simp only [Except.ok.injEq, Prod.mk.injEq] at h
    obtain ⟨h1, -⟩ := h
    subst h1
    exact ⟨le_refl 0, zero_le_one, fun hc => absurd rfl hc⟩
  · have heq := viability_ok_of_resolvable db dt cfgs hres hne
    have hNQ : (0 : Rat) < (cfgs.length : Rat) := by
      exact_mod_cast List.length_pos.mpr hne
    refine ⟨fun h => absurd h hne, ⟨_, heq⟩, ?_⟩
    intro score tier h
    rw [heq] at h
    simp only [Except.ok.injEq, Prod.mk.injEq] at h
    obtain ⟨h1, -⟩ := h
    subst h1
    refine ⟨div_nonneg (Nat.cast_nonneg _) (le_of_lt hNQ), ?_, fun _ => ?_⟩
    · rw [div_le_one hNQ]
      exact_mod_cast List.countP_le_length _
    · rw [div_eq_one_iff_eq (ne_of_gt hNQ)]
      constructor
      · intro hcast
        exact List.countP_eq_length.mp (Nat.cast_inj.mp hcast)
      · intro hall
        exact_mod_cast congrArg Nat.cast (List.countP_eq_length.mpr hall)

theorem viability_score_range_witness :
    (cfgUTC = [] → calculate_viability_score toyDB 600 cfgUTC = Except.ok (0, "red")) ∧
    (∃ p, calculate_viability_score toyDB 600 cfgUTC = Except.ok p) ∧
    ∀ score tier, calculate_viability_score toyDB 600 cfgUTC = Except.ok (score, tier) →
      0 ≤ score ∧ score ≤ 1 ∧
      (cfgUTC ≠ [] → (score = 1 ↔ ∀ c ∈ cfgUTC, entryInWindow toyDB 600 c = true)) :=
  viability_score_range toyDB 600 cfgUTC
    (by intro c hc; simp only [cfgUTC, List.mem_singleton] at hc; subst hc; rfl)

/-- If some entry of the config list has an unresolvable identifier, the
counting loop raises `UnknownTimezone` for an unresolvable identifier. -/
lemma scoreLoop_error_of_unresolvable (db : TZDB) (dt : Int) :
    ∀ cfgs : List TZConfigEntry, (∃ c ∈ cfgs, db c.id = none) →
      ∃ bad, db bad = none ∧ scoreLoop db dt cfgs = Except.error ⟨bad⟩ := by
  intro cfgs
  induction cfgs with
  | nil =>
    rintro ⟨c, hc, -⟩
    cases hc
  | cons c rest ih =>
    rintro ⟨x, hx, hbad⟩
    rcases List.mem_cons.mp hx with rfl | hx'
    · exact ⟨x.id, hbad, by simp [scoreLoop, hbad]⟩
    · cases hoff : db c.id with
      | none => exact ⟨c.id, hoff, by simp [scoreLoop, hoff]⟩
      | some off =>
        obtain ⟨bad, hb1, hb2⟩ := ih ⟨x, hx', hbad⟩
        exact ⟨bad, hb1, by simp [scoreLoop, hoff, hb2]⟩

/-- C8: an unresolvable `timezoneId` makes `get_current_time_in_timezone`
fail with `UnknownTimezone` naming that identifier, and makes
`calculate_viability_score` fail with `UnknownTimezone` naming an
unresolvable identifier whenever some entry of the config list carries one —
the error propagates to the caller and is never replaced by a default
result. -/
theorem unknown_timezone_propagates (db : TZDB) (now dt : Int) (tz_id : String)
    (cfgs : List TZConfigEntry) (hbad : db tz_id = none)
    (hmem : ∃ c ∈ cfgs, c.id = tz_id) :
    get_current_time_in_timezone db now tz_id = Except.error ⟨tz_id⟩ ∧
    ∃ bad, db bad = none ∧
      calculate_viability_score db dt cfgs = Except.error ⟨bad⟩ := by
  constructor
  · simp [get_current_time_in_timezone, hbad]
  · obtain ⟨c, hc, hcid⟩ := hmem
    obtain ⟨bad, hb1, hb2⟩ :=
      scoreLoop_error_of_unresolvable db dt cfgs ⟨c, hc, hcid ▸ hbad⟩
    refine ⟨bad, hb1, ?_⟩
    have hne : cfgs ≠ [] := by
      rintro rfl
      cases hc
    unfold calculate_viability_score
    rw [if_neg (by simpa using hne), hb2]

theorem unknown_timezone_propagates_witness :
    get_current_time_in_timezone toyDB 600 "Mars/Olympus" =
      Except.error ⟨"Mars/Olympus"⟩ ∧
    ∃ bad, toyDB bad = none ∧
      calculate_viability_score toyDB 600 [⟨"Mars/Olympus", none, none⟩] =
        Except.error ⟨bad⟩ :=
  unknown_timezone_propagates toyDB 600 600 "Mars/Olympus"
    [⟨"Mars/Olympus", none, none⟩] rfl
    ⟨⟨"Mars/Olympus", none, none⟩, List.Mem.head _, rfl⟩

/-- Updating hours never changes the sequence of uids in the store. -/
lemma update_timezone_hours_map_uid (uid : String) (s e : Int)
    (store : List SessionEntry) :
    (update_timezone_hours uid s e store).map (fun tz => tz.uid) =
      store.map fun tz => tz.uid := by
  induction store with
  | nil => rfl
  | cons tz rest ih =>
    simp only [update_timezone_hours]
    by_cases h : (tz.uid == uid) = true
    · rw [if_pos h]
      simp
    · rw [if_neg h]
      simp [ih]

/-- One step of the uid-uniqueness invariant: a store with pairwise-distinct
uids keeps them pairwise distinct under any single operation whose minted uid
(if it is an add) is fresh for the current state. -/
lemma applyOps_uid_nodup (ops : List StoreOp) :
    ∀ store : List SessionEntry,
      ((store.map fun tz => tz.uid).Nodup) → freshUids store ops = true →
      ((applyOps store ops).map fun tz => tz.uid).Nodup := by
  induction ops with
  | nil =>
    intro store h _
    exact h
  | cons op ops ih =>
    intro store hnd hfresh
    simp only [freshUids, Bool.and_eq_true] at hfresh
    obtain ⟨hop, hrest⟩ := hfresh
    refine ih (applyOp store op) ?_ hrest
    cases op with
    | addOp tz_id tz_name u =>
      simp only [applyOp, add_timezone_to_session]
      by_cases hany : (store.any fun tz => tz.id == tz_id) = true
      · rw [if_pos hany]
        exact hnd
      · rw [if_neg hany]
        have hall : (store.all fun e => e.uid != u) = true := by
          rcases (Bool.or_eq_true _ _).mp hop with h | h
          · exact absurd h hany
          · exact h
        rw [List.map_append, List.nodup_append]
        refine ⟨hnd, by simp, ?_⟩
        intro a ha hb
        simp only [List.map_cons, List.map_nil, List.mem_singleton] at hb
        subst hb
        obtain ⟨x, hx, hxu⟩ := List.mem_map.mp ha
        have := List.all_eq_true.mp hall x hx
        rw [hxu] at this
        simp at this
    | removeOp u =>
      exact List.Nodup.sublist
        (List.Sublist.map _ (List.filter_sublist store)) hnd
    | updateOp u s e =>
      simpa [applyOp, update_timezone_hours_map_uid] using hnd

/-- C9: starting from the empty store, any sequence of add / remove /
update-hours requests in which every minted uid is fresh at the moment of its
add leaves the store with pairwise distinct uids. -/
theorem store_uids_pairwise_distinct (ops : List StoreOp)
    (hfresh : freshUids [] ops = true) :
    ((applyOps [] ops).map fun tz => tz.uid).Nodup :=
  applyOps_uid_nodup ops [] (by simp) hfresh

theorem store_uids_pairwise_distinct_witness :
    ((applyOps []
        [StoreOp.addOp "UTC" "UTC" "u1",
          StoreOp.addOp "Asia/Kolkata" "Mumbai" "u2",
          StoreOp.updateOp "u1" 22 6,
          StoreOp.removeOp "u2",
          StoreOp.addOp "Europe/London" "London" "u3"]).map
      fun tz => tz.uid).Nodup :=
  store_uids_pairwise_distinct
    [StoreOp.addOp "UTC" "UTC" "u1",
      StoreOp.addOp "Asia/Kolkata" "Mumbai" "u2",
      StoreOp.updateOp "u1" 22 6,
      StoreOp.removeOp "u2",
      StoreOp.addOp "Europe/London" "London" "u3"]
    (by decide)

/-- Updating hours never changes which `timezoneId` each position holds, so
per-id occurrence counts are preserved. -/
lemma update_timezone_hours_countP_id (uid : String) (s e : Int) (t : String)
    (store : List SessionEntry) :
    ((update_timezone_hours uid s e store).countP fun x => x.id == t) =
      store.countP fun x => x.id == t := by
  induction store with
  | nil => rfl
  | cons tz rest ih =>
    simp only [update_timezone_hours]
    by_cases h : (tz.uid == uid) = true
    · rw [if_pos h]
      simp [List.countP_cons]
    · rw [if_neg h]
      simp [List.countP_cons, ih]

/-- The hypothesis of `add_timezone_idempotent` holds in every reachable
store: each `timezoneId` occurs at most once, and all three request
operations preserve that. -/
lemma applyOps_id_count_le_one (ops : List StoreOp) :
    ∀ store : List SessionEntry,
      (∀ t, (store.countP fun e => e.id == t) ≤ 1) →
      ∀ t, ((applyOps store ops).countP fun e => e.id == t) ≤ 1 := by
  induction ops with
  | nil =>
    intro store h
    exact h
  | cons op ops ih =>
    intro store h
    refine ih (applyOp store op) ?_
    intro t
    cases op with
    | addOp tz_id tz_name u =>
      simp only [applyOp, add_timezone_to_session]
      by_cases hany : (store.any fun tz => tz.id == tz_id) = true
      · rw [if_pos hany]
        exact h t
      · rw [if_neg hany, List.countP_append]
        by_cases hid : tz_id = t
        · subst hid
          have h0 : (store.countP fun e => e.id == tz_id) = 0 := by
            refine List.countP_eq_zero.mpr ?_
            intro a ha
            have := List.any_eq_true.not.mp hany
            push_neg at this
            exact this a ha
          rw [h0]
          simp
        · have h1 : (List.countP (fun e => e.id == t)
              [(⟨tz_id, tz_name, 9, 17, u⟩ : SessionEntry)]) = 0 := by
            simp [hid]
          rw [h1]
          simpa using h t
    | removeOp u =>
      simp only [applyOp, remove_timezone_from_session]
      exact le_trans
        (List.Sublist.countP_le _ (List.filter_sublist store)) (h t)
    | updateOp u s e =>
      simp only [applyOp]
      rw [update_timezone_hours_countP_id]
      exact h t
